import Mathlib

/-!
# Verification of the sg-bucket view-query pipeline (`views.go`)

This file gives a shallow embedding of the view-result processing pipeline:
the JSON collator, range selection (binary search + limit), document
inlining, and grouped/ungrouped reduction, together with theorems checking
the specification's claims against the embedded code.

Conventions:
* Decoded JSON values are modelled by `JSONValue` (numbers as `Int`,
  idealizing Go's `float64`; every number in the claims is integral).
* Go functions returning `(T, error)` are modelled with `Except`/`Option`;
  a run-time panic (out-of-range index, failed type assertion) is modelled
  by `Option.none` at the outermost layer.
* The collator itself lives in `collate.go`, which is outside the sources
  under verification; it is modelled from the spec (§4.1), as is the
  numeric coercion `collationToFloat64` used by the `_sum` reducer.
-/

namespace SGBucket

/-- A decoded JSON value (Go `interface{}` after `json.Unmarshal`).
Numbers are idealized as integers: every numeric value appearing in the
spec's claims and examples is integral, and machine floating point is
outside the embedding. -/
inductive JSONValue where
  | null : JSONValue
  | boolean : Bool → JSONValue
  | number : Int → JSONValue
  | string : String → JSONValue
  | array : List JSONValue → JSONValue
  | object : List (String × JSONValue) → JSONValue
deriving Repr

/-- Type precedence of the collation order (spec §4.1 rule 1):
`null < bool < number < string < array < object`. -/
def typeRank : JSONValue → Nat
  | .null => 0
  | .boolean _ => 1
  | .number _ => 2
  | .string _ => 3
  | .array _ => 4
  | .object _ => 5

/-- Three-way comparison on naturals, with the Go convention -1/0/1. -/
def natCmp (a b : Nat) : Int := if a < b then -1 else if b < a then 1 else 0

/-- `false` sorts before `true` (spec §4.1 rule 1). -/
def boolCmp : Bool → Bool → Int
  | false, false => 0
  | false, true => -1
  | true, false => 1
  | true, true => 0

/-- Numbers compare numerically (spec §4.1 rule 2). -/
def numCmp (a b : Int) : Int := if a < b then -1 else if b < a then 1 else 0

/-- Characters compare by Unicode code point (spec §4.1 rule 3). -/
def charCmp (a b : Char) : Int := natCmp a.toNat b.toNat

/-- Lexicographic comparison of lists by an element comparator; a proper
prefix sorts first (spec §4.1 rules 3-5). -/
def lexCmp (c : α → α → Int) : List α → List α → Int
  | [], [] => 0
  | [], _ :: _ => -1
  | _ :: _, [] => 1
  | a :: as, b :: bs => if c a b = 0 then lexCmp c as bs else c a b

/-- Strings compare by code-point sequence (spec §4.1 rule 3). -/
def strCmp (a b : String) : Int := lexCmp charCmp a.data b.data

/-- Lexicographic comparison of pairs: first component, then second. -/
def pairCmp (c₁ : α → α → Int) (c₂ : β → β → Int) (p q : α × β) : Int :=
  if c₁ p.1 q.1 = 0 then c₂ p.2 q.2 else c₁ p.1 q.1

mutual

/-- Modelled from the spec: the Collator's total order over decoded JSON
values (spec §4.1; `collate.go` is not among the sources under
verification). Same-type values compare by payload, different types by
`typeRank`. Objects are compared on key-sorted entry lists; `collateRaw`
expects its object arguments already normalized (see `collate`). -/
def collateRaw : JSONValue → JSONValue → Int
  | .null, .null => 0
  | .boolean a, .boolean b => boolCmp a b
  | .number a, .number b => numCmp a b
  | .string a, .string b => strCmp a b
  | .array a, .array b => collateArr a b
  | .object a, .object b => collateObj a b
  | a, b => natCmp (typeRank a) (typeRank b)

/-- Element-wise array comparison; shorter prefix sorts first (§4.1 rule 4). -/
def collateArr : List JSONValue → List JSONValue → Int
  | [], [] => 0
  | [], _ :: _ => -1
  | _ :: _, [] => 1
  | a :: as, b :: bs => if collateRaw a b = 0 then collateArr as bs else collateRaw a b

/-- Pairwise comparison of object entries: key first, then value
(§4.1 rule 5). -/
def collateObj : List (String × JSONValue) → List (String × JSONValue) → Int
  | [], [] => 0
  | [], _ :: _ => -1
  | _ :: _, [] => 1
  | p :: ps, q :: qs =>
    if strCmp p.1 q.1 = 0 then
      (if collateRaw p.2 q.2 = 0 then collateObj ps qs else collateRaw p.2 q.2)
    else strCmp p.1 q.1

end

/-- Insert an entry into a key-sorted entry list. -/
def insertPair (p : String × JSONValue) :
    List (String × JSONValue) → List (String × JSONValue)
  | [] => [p]
  | q :: qs => if strCmp p.1 q.1 ≤ 0 then p :: q :: qs else q :: insertPair p qs

/-- Insertion sort of object entries by key (spec §4.1 rule 5: objects
compare by their entries sorted by key). -/
def sortPairs (l : List (String × JSONValue)) : List (String × JSONValue) :=
  l.foldr insertPair []

mutual

/-- Recursively sort every object's entry list by key, so that the raw
collator compares objects on key-sorted entries (spec §4.1 rule 5). -/
def normalize : JSONValue → JSONValue
  | .null => .null
  | .boolean b => .boolean b
  | .number n => .number n
  | .string s => .string s
  | .array xs => .array (normList xs)
  | .object ps => .object (sortPairs (normPairs ps))

def normList : List JSONValue → List JSONValue
  | [] => []
  | x :: xs => normalize x :: normList xs

def normPairs : List (String × JSONValue) → List (String × JSONValue)
  | [] => []
  | p :: ps => (p.1, normalize p.2) :: normPairs ps

end

/-- Modelled from the spec: `Collate(a, b) → {-1, 0, +1}`, the total order
of spec §4.1 (the Go implementation, `collate.go`, is not among the sources
under verification). -/
def collate (a b : JSONValue) : Int := collateRaw (normalize a) (normalize b)

/-! ## Data model (`ViewRow`, `ViewResult`, query parameters, errors) -/

/-- One row of a view result (Go `ViewRow`). The zero value of a Go
`interface{}` field is `nil`, modelled as `JSONValue.null`. -/
structure ViewRow where
  ID : String := ""
  Key : JSONValue := .null
  Value : JSONValue := .null
  Doc : Option JSONValue := none
deriving Repr

/-- A view result (Go `ViewResult`): the row sequence and the total-row
counter. -/
structure ViewResult where
  TotalRows : Nat := 0
  Rows : List ViewRow := []
deriving Repr

/-- The recognized query parameters. Go reads them from a
`map[string]interface{}` with type assertions; a field is `some v` when the
key is present with the asserted type, `none` otherwise (absent keys, a nil
map, and present-but-wrongly-typed values all read as `none`, matching the
`, ok`-style assertions in `ProcessViewResult`). -/
structure ViewParams where
  include_docs : Option Bool := none
  limit : Option Nat := none
  reverse : Option Bool := none
  reduce : Option Bool := none
  startkey : Option JSONValue := none
  start_key : Option JSONValue := none
  endkey : Option JSONValue := none
  end_key : Option JSONValue := none
  key : Option JSONValue := none
  inclusive_end : Option Bool := none
  group : Option Bool := none
  group_level : Option Nat := none
deriving Repr

/-- The error kinds surfaced by the pipeline (Go returns `fmt.Errorf`
values; we distinguish them by kind). Document-fetch errors carry the id,
standing for the storage collaborator's wrapped error. -/
inductive ViewError where
  | unsupportedOperation
  | unsupportedReduceFunction
  | docFetchFailed (id : String)
deriving Repr, DecidableEq

/-! ## Range selector -/

/-- The loop of Go's `sort.Search`: binary search for the smallest index in
`[i, j)` at which `f` flips to true (all of `[j, n)` is assumed true).
The Go loop terminates because the interval shrinks; here the interval
length also bounds the iteration count, so `fuel` many steps (started with
`fuel = n ≥ j - i`) reproduce the loop exactly. -/
def searchLoop (f : Nat → Bool) : Nat → Nat → Nat → Nat
  | 0, i, _ => i
  | fuel + 1, i, j =>
    if i < j then
      if f ((i + j) / 2) then searchLoop f fuel i ((i + j) / 2)
      else searchLoop f fuel ((i + j) / 2 + 1) j
    else i

/-- Go's `sort.Search n f`: the smallest index in `[0, n]` at which the
monotone predicate `f` becomes true. -/
def sortSearch (n : Nat) (f : Nat → Bool) : Nat := searchLoop f n 0 n

/-- The `startkey` trim of `ProcessViewResult`: drop everything before the
first index `i` with `Collate(Rows[i].Key, startkey) >= 0`, found by
`sort.Search`. -/
def applyStartTrim (startkey : Option JSONValue) (rows : List ViewRow) : List ViewRow :=
  match startkey with
  | none => rows
  | some sk =>
    rows.drop (sortSearch rows.length (fun i => decide (0 ≤ collate (rows.getD i {}).Key sk)))

/-- The `limit` truncation of `ProcessViewResult`: when `limit > 0` and
more rows remain, keep the first `limit` rows. -/
def applyLimit (limit : Nat) (rows : List ViewRow) : List ViewRow :=
  if 0 < limit ∧ limit < rows.length then rows.take limit else rows

/-- The `endkey` trim of `ProcessViewResult`: truncate at the first index
`i` with `Collate(Rows[i].Key, endkey) > threshold`, where the threshold is
`0` when `inclusive_end` holds and `-1` otherwise. -/
def applyEndTrim (endkey : Option JSONValue) (inclusiveEnd : Bool) (rows : List ViewRow) :
    List ViewRow :=
  match endkey with
  | none => rows
  | some ek =>
    let threshold : Int := if inclusiveEnd then 0 else -1
    rows.take (sortSearch rows.length (fun i => decide (threshold < collate (rows.getD i {}).Key ek)))

/-- Effective start boundary: `key` overrides, else `startkey`, else the
older synonym `start_key`. -/
def effectiveStartkey (params : ViewParams) : Option JSONValue :=
  match params.key with
  | some k => some k
  | none =>
    match params.startkey with
    | some sk => some sk
    | none => params.start_key

/-- Effective end boundary: `key` overrides, else `endkey`, else `end_key`. -/
def effectiveEndkey (params : ViewParams) : Option JSONValue :=
  match params.key with
  | some k => some k
  | none =>
    match params.endkey with
    | some ek => some ek
    | none => params.end_key

/-- Effective end-inclusivity: `true` by default; `inclusive_end` is only
consulted when no explicit `key` parameter is present. -/
def effectiveInclusiveEnd (params : ViewParams) : Bool :=
  match params.key with
  | some _ => true
  | none => params.inclusive_end.getD true

/-- The whole range-selection phase, in the order the code performs it:
start trim, then limit, then end trim. -/
def applyRange (params : ViewParams) (rows : List ViewRow) : List ViewRow :=
  applyEndTrim (effectiveEndkey params) (effectiveInclusiveEnd params)
    (applyLimit (params.limit.getD 0) (applyStartTrim (effectiveStartkey params) rows))

/-! ## Reduce registry and grouping/reduction engine -/

/-- Modelled from the spec: the numeric coercion used by the `_sum`
reducer (`collationToFloat64` lives in `collate.go`, outside the sources
under verification; spec §4.4 gives non-numeric values a 0 contribution). -/
def collationToFloat64 : JSONValue → Int
  | .number n => n
  | _ => 0

/-- Go `ReduceFunc`: the registry mapping a reduce-function identifier to
its fold. Only `_count` and `_sum` exist; anything else is an error. -/
def ReduceFunc (reduceFunction : String) :
    Except ViewError (List ViewRow → Except ViewError ViewRow) :=
  match reduceFunction with
  | "_count" => .ok fun rows => .ok { Value := .number (rows.length : Int) }
  | "_sum" => .ok fun rows =>
      .ok { Value := .number (rows.foldl (fun total row => total + collationToFloat64 row.Value) 0) }
  | _ => .error .unsupportedReduceFunction

/-- Go `keyPrefix`: `key.([]interface{})[0:groupLevel]`. The type assertion
panics on a non-array key and the slice panics when the array is shorter
than `groupLevel`; both panics are modelled by `none`. -/
def keyPrefixOf (groupLevel : Nat) (key : JSONValue) : Option JSONValue :=
  match key with
  | .array elems => if groupLevel ≤ elems.length then some (.array (elems.take groupLevel)) else none
  | _ => none

/-- The key projection of the grouping engine: the whole key when
`group=true` (`groupLevel = -1`), otherwise its `groupLevel`-element
prefix. -/
def projectKey (groupLevel : Int) (key : JSONValue) : Option JSONValue :=
  if groupLevel = -1 then some key else keyPrefixOf groupLevel.toNat key

/-- The `groupLevel` computed by `ReduceViewResult`: `-1` when
`group=true`, else the given `group_level`, else `0`. -/
def groupLevelOf (params : ViewParams) : Int :=
  if params.group = some true then -1
  else
    match params.group_level with
    | some n => (n : Int)
    | none => 0

/-- The scan loop of `ReduceViewResult`'s grouped case: `key` is the
running group key, `inRows` the accumulated rows of the open group,
`outRows` the closed groups' output rows. A projection failure (Go panic)
gives `none`; a reduce-function error aborts with that error. -/
def groupScan (g : List ViewRow → Except ViewError ViewRow) (groupLevel : Int) :
    JSONValue → List ViewRow → List ViewRow → List ViewRow →
    Option (Except ViewError (List ViewRow))
  | key, inRows, outRows, [] =>
    match g inRows with
    | .error e => some (.error e)
    | .ok outRow => some (.ok (outRows ++ [{ outRow with Key := key }]))
  | key, inRows, outRows, row :: rest =>
    match projectKey groupLevel row.Key with
    | none => none
    | some inKey =>
      if collate inKey key = 0 then
        groupScan g groupLevel key (inRows ++ [row]) outRows rest
      else
        match g inRows with
        | .error e => some (.error e)
        | .ok outRow =>
          groupScan g groupLevel inKey [row] (outRows ++ [{ outRow with Key := key }]) rest

/-- Go `ReduceViewResult`: compile the reduce function, read the grouping
parameters, then either scan the rows group-by-group (grouped case,
seeded with the projection of `Rows[0]`) or fold the whole sequence once
(ungrouped case). `none` models a panic (empty `Rows` or an unprojectable
key in the grouped case); `some (.error e)` an error return, under which
the result is not mutated. -/
def ReduceViewResult (reduceFunction : String) (params : ViewParams) (result : ViewResult) :
    Option (Except ViewError ViewResult) :=
  match ReduceFunc reduceFunction with
  | .error e => some (.error e)
  | .ok reduceFun =>
    let groupLevel := groupLevelOf params
    if groupLevel ≠ 0 then
      match result.Rows with
      | [] => none
      | row0 :: _ =>
        match projectKey groupLevel row0.Key with
        | none => none
        | some key =>
          match groupScan reduceFun groupLevel key [] [] result.Rows with
          | none => none
          | some (.error e) => some (.error e)
          | some (.ok newRows) => some (.ok { result with Rows := newRows })
    else
      match reduceFun result.Rows with
      | .error e => some (.error e)
      | .ok row => some (.ok { result with Rows := [row] })

/-! ## Document inliner and query orchestrator -/

/-- The document inliner's loop: fetch (and decode) each surviving row's
document by `ID` from the storage collaborator and attach it as `Doc`;
the first failing fetch aborts. -/
def fetchDocs (bucket : String → Except ViewError JSONValue) :
    List ViewRow → Except ViewError (List ViewRow)
  | [] => .ok []
  | row :: rest =>
    match bucket row.ID with
    | .error e => .error e
    | .ok doc =>
      match fetchDocs bucket rest with
      | .error e => .error e
      | .ok rows => .ok ({ row with Doc := some doc } :: rows)

/-- The tail of `ProcessViewResult`: run the reduce phase when requested
and a reduce function is named, then recompute `TotalRows`. On a reduce
error the (unreduced) result is returned alongside the error, without the
`TotalRows` update. -/
def finishReduce (reduce : Bool) (reduceFunction : String) (params : ViewParams)
    (r : ViewResult) : Option (ViewResult × Option ViewError) :=
  if reduce ∧ reduceFunction ≠ "" then
    match ReduceViewResult reduceFunction params r with
    | none => none
    | some (.error e) => some (r, some e)
    | some (.ok r2) => some ({ r2 with TotalRows := r2.Rows.length }, none)
  else some ({ r with TotalRows := r.Rows.length }, none)

/-- Go `ProcessViewResult`: the query orchestrator. Returns the processed
result paired with an optional error (Go's `(ViewResult, error)`), or
`none` when the run panics. Stages in order: reject `reverse`; compute the
effective boundaries; start trim, limit, end trim; inline documents when
`include_docs` (a failed fetch returns the trimmed rows and the error);
reduce when enabled and named; recompute `TotalRows`. -/
def ProcessViewResult (result : ViewResult) (params : ViewParams)
    (bucket : String → Except ViewError JSONValue) (reduceFunction : String) :
    Option (ViewResult × Option ViewError) :=
  let includeDocs := params.include_docs.getD false
  let reverse := params.reverse.getD false
  let reduce := params.reduce.getD true
  if reverse then some (result, some .unsupportedOperation)
  else
    let rows3 := applyRange params result.Rows
    if includeDocs then
      match fetchDocs bucket rows3 with
      | .error e => some ({ result with Rows := rows3 }, some e)
      | .ok rows4 => finishReduce reduce reduceFunction params { result with Rows := rows4 }
    else
      finishReduce reduce reduceFunction params { result with Rows := rows3 }

/-! ## Spec-side description of the grouped scan

`specScan` is the specification's narrative of the grouped case, stated as
a function: maintain a running group key and an accumulator; when the next
row's projected key differs, close the group (reduce it, key the output row
by the group key, emit it) and start a new group; after the scan the final
open group is always closed and emitted. -/

/-- Modelled from the spec: the grouped-reduction scan of §4.5, with a
total key projection `proj` and a total reduce fold `rf`. -/
def specScan (proj : JSONValue → JSONValue) (rf : List ViewRow → ViewRow) :
    JSONValue → List ViewRow → List ViewRow → List ViewRow
  | key, inRows, [] => [{ rf inRows with Key := key }]
  | key, inRows, row :: rest =>
    if collate (proj row.Key) key = 0 then specScan proj rf key (inRows ++ [row]) rest
    else { rf inRows with Key := key } :: specScan proj rf (proj row.Key) [row] rest

/-! ## Shared concrete examples -/

/-- A row with just a key (spec §8 examples identify rows by their keys). -/
def rowOfKey (k : JSONValue) : ViewRow := { Key := k }

/-- Sorted rows with numeric keys 1..5 (spec §8). -/
def exampleRows15 : ViewResult :=
  { TotalRows := 5, Rows :=
      [rowOfKey (.number 1), rowOfKey (.number 2), rowOfKey (.number 3),
       rowOfKey (.number 4), rowOfKey (.number 5)] }

/-- Sorted rows with numeric keys 1,2,3,3,4 (spec §8 equality-range example). -/
def exampleRows1334 : ViewResult :=
  { TotalRows := 5, Rows :=
      [rowOfKey (.number 1), rowOfKey (.number 2), rowOfKey (.number 3),
       rowOfKey (.number 3), rowOfKey (.number 4)] }

/-- Rows with array keys [["a",1],["a",2],["b",1]] (spec §8 grouping example). -/
def exampleGroupRows : ViewResult :=
  { TotalRows := 3, Rows :=
      [rowOfKey (.array [.string "a", .number 1]),
       rowOfKey (.array [.string "a", .number 2]),
       rowOfKey (.array [.string "b", .number 1])] }

/-- Rows with values 1,2,3 (spec §8 ungrouped `_sum` example). -/
def exampleValueRows : ViewResult :=
  { TotalRows := 3, Rows :=
      [{ Value := .number 1 }, { Value := .number 2 }, { Value := .number 3 }] }

/-- A storage collaborator on which every fetch fails (unused whenever
`include_docs` is off). -/
def errBucket : String → Except ViewError JSONValue :=
  fun id => .error (.docFetchFailed id)

/-- The already-processed result of the C9 scenario: a single reduced row
whose `Key` is unset. -/
def exampleProcessed : ViewResult :=
  { TotalRows := 1, Rows := [{ Key := .null, Value := .number 3 }] }

/-- Bucket holding a document for every id (the id echoed as a string). -/
def okBucket : String → Except ViewError JSONValue := fun id => .ok (.string id)

/-- Two rows with document ids, for the C8 witness. -/
def exampleDocRows : ViewResult :=
  { TotalRows := 2, Rows := [{ ID := "d1", Key := .number 1 }, { ID := "d2", Key := .number 2 }] }

/-- The four instances of `≤ 0`-transitivity at a triple that the
lexicographic lemmas consume (the triple in its original order and the
three reorderings that arise from antisymmetry arguments). -/
def Trans3 (c : α → α → Int) (x y z : α) : Prop :=
  (c x y ≤ 0 → c y z ≤ 0 → c x z ≤ 0) ∧
  (c z y ≤ 0 → c y x ≤ 0 → c z x ≤ 0) ∧
  (c z x ≤ 0 → c x y ≤ 0 → c z y ≤ 0) ∧
  (c y z ≤ 0 → c z x ≤ 0 → c y x ≤ 0)

/-! ## The range selector matches the spec's first-index semantics -/

/-- The input invariant of the range selector (spec §3): rows sorted
ascending by key under the Collator. -/
def SortedRows (rows : List ViewRow) : Prop :=
  List.Pairwise (fun a b => collate a.Key b.Key ≤ 0) rows

/-- Modelled from the spec: "drop everything before the first index `i`
such that `Collate(Rows[i].Key, startkey) >= 0`" — on any list this first
index is the `dropWhile` boundary of the complementary predicate. -/
def specStartTrim (startkey : Option JSONValue) (rows : List ViewRow) : List ViewRow :=
  match startkey with
  | none => rows
  | some sk => rows.dropWhile (fun r => decide (collate r.Key sk < 0))

/-- Modelled from the spec: "truncate at the first index `i` such that
`Collate(Rows[i].Key, endkey) > threshold`", threshold `0` when inclusive
and `-1` when not — the `takeWhile` of the complementary predicate. -/
def specEndTrim (endkey : Option JSONValue) (inclusiveEnd : Bool) (rows : List ViewRow) :
    List ViewRow :=
  match endkey with
  | none => rows
  | some ek =>
    let threshold : Int := if inclusiveEnd then 0 else -1
    rows.takeWhile (fun r => decide (collate r.Key ek ≤ threshold))

/-! ## Sanity examples for the collation order (spec §8) -/

example : collate (.number 1) (.number 2) = -1 := rfl
example : collate (.string "ab") (.string "b") = -1 := rfl
example : collate (.array [.number 1, .number 2]) (.array [.number 1, .number 2, .number 3]) = -1 := rfl
example : collate (.array [.number 1, .number 3]) (.array [.number 1, .number 2]) = 1 := rfl
example : collate .null (.boolean false) = -1 := rfl
example : collate (.boolean true) (.number 0) = -1 := rfl
example : collate (.object [("b", .number 1), ("a", .number 2)])
    (.object [("a", .number 2), ("b", .number 1)]) = 0 := rfl

theorem specScan_ne_nil (proj : JSONValue → JSONValue) (rf : List ViewRow → ViewRow) :
    ∀ (rest : List ViewRow) (key : JSONValue) (inRows : List ViewRow),
      specScan proj rf key inRows rest ≠ [] := by
  intro rest
  induction rest with
  | nil => intro key inRows h; exact List.noConfusion h
  | cons row rest ih =>
    intro key inRows
    rw [specScan]
    split
    · exact ih _ _
    · intro h; exact List.noConfusion h

/-- The grouped scan loop of the code equals the spec-side scan, provided
every remaining key projects and the reduce function is total. -/
theorem groupScan_eq_specScan (g : List ViewRow → Except ViewError ViewRow)
    (rf : List ViewRow → ViewRow) (groupLevel : Int)
    (hg : ∀ l, g l = .ok (rf l)) :
    ∀ (rest : List ViewRow) (key : JSONValue) (inRows outRows : List ViewRow),
      (∀ r ∈ rest, (projectKey groupLevel r.Key).isSome) →
      groupScan g groupLevel key inRows outRows rest =
        some (.ok (outRows ++
          specScan (fun k => (projectKey groupLevel k).getD .null) rf key inRows rest)) := by
  intro rest
  induction rest with
  | nil =>
    intro key inRows outRows _
    rw [groupScan, hg inRows, specScan]
  | cons row rest ih =>
    intro key inRows outRows hproj
    obtain ⟨ik, hik⟩ := Option.isSome_iff_exists.mp (hproj row (List.mem_cons_self row rest))
    have hrest : ∀ r ∈ rest, (projectKey groupLevel r.Key).isSome :=
      fun r hr => hproj r (List.mem_cons_of_mem row hr)
    rw [groupScan, hik, specScan, hik]
    simp only [Option.getD_some]
    split
    · exact ih key (inRows ++ [row]) outRows hrest
    · rw [hg inRows]
      show groupScan g groupLevel ik [row] (outRows ++ [{ rf inRows with Key := key }]) rest = _
      have h2 := ih ik [row] (outRows ++ [{ rf inRows with Key := key }]) hrest
      rw [List.append_assoc, List.singleton_append] at h2
      exact h2

/-! ## Claim theorems -/

/-- C1: grouped reduction (`group=true` or `group_level=N`, `N ≥ 1`) scans
the sorted rows once, accumulating consecutive rows with Collator-equal
projected keys; when the projection differs it reduces the accumulated
rows, keys the output row by the group key and appends it; the final open
group is always emitted (so a non-empty input yields at least one output
row) and the grouped output rows appear in group order — formalized as:
the grouped case of `ReduceViewResult` equals the spec's scan `specScan`,
whose output is never empty. In particular keys
`[["a",1],["a",2],["b",1]]` under `_count` with `group_level=1` yield
exactly the two rows `["a"] ↦ 2` and `["b"] ↦ 1`, in that order. -/
theorem claim1_grouped_reduction
    (name : String) (params : ViewParams) (result : ViewResult)
    (g : List ViewRow → Except ViewError ViewRow) (rf : List ViewRow → ViewRow)
    (row0 : ViewRow) (rest : List ViewRow)
    (hR : ReduceFunc name = .ok g)
    (hg : ∀ l, g l = .ok (rf l))
    (hgl : groupLevelOf params ≠ 0)
    (hrows : result.Rows = row0 :: rest)
    (hproj : ∀ r ∈ result.Rows, (projectKey (groupLevelOf params) r.Key).isSome) :
    (ReduceViewResult name params result =
      some (.ok { result with Rows :=
        (specScan (fun k => (projectKey (groupLevelOf params) k).getD .null) rf
          ((projectKey (groupLevelOf params) row0.Key).getD .null) [] (row0 :: rest)) }))
    ∧ (specScan (fun k => (projectKey (groupLevelOf params) k).getD .null) rf
        ((projectKey (groupLevelOf params) row0.Key).getD .null) [] (row0 :: rest) ≠ [])
    ∧ (ProcessViewResult exampleGroupRows { group_level := some 1 } errBucket "_count" =
        some ({ TotalRows := 2, Rows :=
          [{ Key := .array [.string "a"], Value := .number 2 },
           { Key := .array [.string "b"], Value := .number 1 }] }, none)) := by
  have hp0 : (projectKey (groupLevelOf params) row0.Key).isSome :=
    hproj row0 (by rw [hrows]; exact List.mem_cons_self row0 rest)
  obtain ⟨k0, hk0⟩ := Option.isSome_iff_exists.mp hp0
  refine ⟨?_, specScan_ne_nil _ _ _ _ _, rfl⟩
  have hscan := groupScan_eq_specScan g rf (groupLevelOf params) hg (row0 :: rest) k0 [] []
    (by rw [← hrows]; exact hproj)
  simp only [ReduceViewResult, hR, hrows, hk0, if_pos hgl, hscan, List.nil_append,
    Option.getD_some]

/-- Witness for C1: the concrete grouping example, via the theorem. -/
theorem claim1_grouped_reduction_witness :
    ProcessViewResult exampleGroupRows { group_level := some 1 } errBucket "_count" =
      some ({ TotalRows := 2, Rows :=
        [{ Key := .array [.string "a"], Value := .number 2 },
         { Key := .array [.string "b"], Value := .number 1 }] }, none) :=
  (claim1_grouped_reduction "_count" { group_level := some 1 } exampleGroupRows
    (fun rows => .ok { Value := .number (rows.length : Int) })
    (fun rows => { Value := .number (rows.length : Int) })
    (rowOfKey (.array [.string "a", .number 1]))
    [rowOfKey (.array [.string "a", .number 2]), rowOfKey (.array [.string "b", .number 1])]
    rfl (fun _ => rfl) (by decide) rfl (by decide) ).2.2

/-- C5: with reduce enabled and neither `group` nor `group_level` given
(`groupLevel = 0`), the whole row sequence — an empty one included — is
folded exactly once through the reduce function, and `Rows` is replaced by
the single output row, whose `Key` is left unset (`null`); `_sum` over
values 1,2,3 gives `Value = 6`, and `_count` gives the number of input
rows. -/
theorem claim5_ungrouped_reduce
    (params : ViewParams)
    (hgroup : params.group ≠ some true)
    (hglevel : params.group_level = none ∨ params.group_level = some 0) :
    (∀ (result : ViewResult) (name : String) g row,
        ReduceFunc name = .ok g → g result.Rows = .ok row →
        ReduceViewResult name params result = some (.ok { result with Rows := [row] }))
    ∧ (∀ result : ViewResult,
        ReduceViewResult "_count" params result =
          some (.ok { result with Rows :=
            [{ Key := .null, Value := .number (result.Rows.length : Int) }] }))
    ∧ (ReduceViewResult "_sum" params exampleValueRows =
        some (.ok { TotalRows := 3, Rows := [{ Key := .null, Value := .number 6 }] }))
    ∧ (ReduceViewResult "_count" params { TotalRows := 0, Rows := [] } =
        some (.ok { TotalRows := 0, Rows := [{ Key := .null, Value := .number 0 }] })) := by
  have hgl0 : groupLevelOf params = 0 := by
    unfold groupLevelOf
    rw [if_neg hgroup]
    rcases hglevel with h | h <;> simp [h]
  have hbase : ∀ (result : ViewResult) (name : String) g row,
      ReduceFunc name = .ok g → g result.Rows = .ok row →
      ReduceViewResult name params result = some (.ok { result with Rows := [row] }) := by
    intro result name g row hR hrow
    simp only [ReduceViewResult, hR, hgl0, ne_eq, not_true_eq_false, if_false, hrow]
  refine ⟨hbase, fun result => hbase result "_count" _ _ rfl rfl, ?_, ?_⟩
  · exact hbase exampleValueRows "_sum" _ _ rfl rfl
  · exact hbase { TotalRows := 0, Rows := [] } "_count" _ _ rfl rfl

/-- Witness for C5: the `_sum` example over values 1,2,3, via the theorem. -/
theorem claim5_ungrouped_reduce_witness :
    ReduceViewResult "_sum" {} exampleValueRows =
      some (.ok { TotalRows := 3, Rows := [{ Key := .null, Value := .number 6 }] }) :=
  (claim5_ungrouped_reduce {} (by decide) (Or.inl rfl)).2.2.1

/-- C6: whenever the `reverse` parameter is true, `ProcessViewResult`
returns an unsupported-operation error and the result — its `Rows`
included — is exactly the unmodified input; no trimming, inlining or
reduction is performed. -/
theorem claim6_reverse_unsupported
    (result : ViewResult) (params : ViewParams)
    (bucket : String → Except ViewError JSONValue) (reduceFunction : String)
    (hrev : params.reverse = some true) :
    ProcessViewResult result params bucket reduceFunction =
      some (result, some .unsupportedOperation) := by
  simp only [ProcessViewResult, hrev, Option.getD_some, if_true]

/-- Witness for C6: a concrete reversed query, via the theorem. -/
theorem claim6_reverse_unsupported_witness :
    ProcessViewResult exampleRows15 { reverse := some true, startkey := some (.number 2) }
        errBucket "_count" =
      some (exampleRows15, some .unsupportedOperation) :=
  claim6_reverse_unsupported exampleRows15
    { reverse := some true, startkey := some (.number 2) } errBucket "_count" rfl

/-- C7: every reduce-function identifier other than `_count` and `_sum`
makes the reduce stage fail with the unsupported-reduce-function error,
raised by the registry before any grouping or folding, so the stage leaves
`Rows` untouched: `ReduceViewResult` returns the error without producing a
result, and `ProcessViewResult` returns the rows exactly as the range phase
left them, with that error. -/
theorem claim7_unknown_reduce_rejected
    (reduceFunction : String)
    (h1 : reduceFunction ≠ "_count") (h2 : reduceFunction ≠ "_sum") :
    (ReduceFunc reduceFunction = .error .unsupportedReduceFunction)
    ∧ (∀ (params : ViewParams) (result : ViewResult),
        ReduceViewResult reduceFunction params result =
          some (.error .unsupportedReduceFunction))
    ∧ (∀ (result : ViewResult) (params : ViewParams)
        (bucket : String → Except ViewError JSONValue),
        reduceFunction ≠ "" →
        params.reverse.getD false = false →
        params.include_docs.getD false = false →
        params.reduce.getD true = true →
        ProcessViewResult result params bucket reduceFunction =
          some ({ result with Rows := applyRange params result.Rows },
            some .unsupportedReduceFunction)) := by
  have hRF : ReduceFunc reduceFunction = .error .unsupportedReduceFunction := by
    unfold ReduceFunc
    split
    · simp_all
    · simp_all
    · rfl
  have hRVR : ∀ (params : ViewParams) (result : ViewResult),
      ReduceViewResult reduceFunction params result =
        some (.error .unsupportedReduceFunction) := by
    intro params result
    simp only [ReduceViewResult, hRF]
  refine ⟨hRF, hRVR, ?_⟩
  intro result params bucket hne hrev hdocs hred
  simp only [ProcessViewResult, hrev, if_false, hdocs, finishReduce, hred, hne,
    ne_eq, not_false_eq_true, and_self, if_true, hRVR, Bool.false_eq_true]

/-- Witness for C7: the identifier `_stats`, via the theorem. -/
theorem claim7_unknown_reduce_rejected_witness :
    ProcessViewResult exampleRows15 { startkey := some (.number 2) } errBucket "_stats" =
      some ({ exampleRows15 with
        Rows := applyRange { startkey := some (.number 2) } exampleRows15.Rows },
        some .unsupportedReduceFunction) :=
  (claim7_unknown_reduce_rejected "_stats" (by decide) (by decide)).2.2
    exampleRows15 { startkey := some (.number 2) } errBucket
    (by decide) rfl rfl rfl

/-- `limit = 0` means unlimited: the limit truncation is the identity. -/
theorem applyLimit_zero (rows : List ViewRow) : applyLimit 0 rows = rows := by
  unfold applyLimit
  simp

/-- A helper for evaluating a one-element end trim under an abstract
endkey: `sort.Search` over one index whose predicate is false returns 1. -/
theorem sortSearch_one_false (f : Nat → Bool) (hf : f 0 = false) : sortSearch 1 f = 1 := by
  simp [sortSearch, searchLoop, hf]

/-- C3 (amended): when `limit > 0`, truncation to at most `limit` rows is
applied after the startkey trim and before the endkey trim — for every
input the result is `endtrim (limit (starttrim rows))` — and `limit = 0`
means unlimited. Hence with sorted keys 1..5, `limit=1` and `startkey=2`
yield exactly the row with key 2 for every endkey that does not collate
below 2 (the claim's "regardless of any endkey value" fails: an endkey
collating below the startkey empties the result, see the
counterexample). -/
theorem claim3_limit_between_trims
    (result : ViewResult) (params : ViewParams)
    (bucket : String → Except ViewError JSONValue) (reduceFunction : String)
    (hrev : params.reverse.getD false = false)
    (hdocs : params.include_docs.getD false = false)
    (hred : params.reduce.getD true = false ∨ reduceFunction = "") :
    (ProcessViewResult result params bucket reduceFunction =
      some ({ result with
        Rows := applyEndTrim (effectiveEndkey params) (effectiveInclusiveEnd params)
          (applyLimit (params.limit.getD 0)
            (applyStartTrim (effectiveStartkey params) result.Rows)),
        TotalRows := (applyEndTrim (effectiveEndkey params) (effectiveInclusiveEnd params)
          (applyLimit (params.limit.getD 0)
            (applyStartTrim (effectiveStartkey params) result.Rows))).length }, none))
    ∧ (∀ rows, applyLimit 0 rows = rows)
    ∧ (∀ ek : JSONValue, collate (.number 2) ek ≤ 0 →
        ProcessViewResult exampleRows15
          { startkey := some (.number 2), limit := some 1, endkey := some ek }
          errBucket "" =
        some ({ TotalRows := 1, Rows := [rowOfKey (.number 2)] }, none)) := by
  refine ⟨?_, applyLimit_zero, ?_⟩
  · rcases hred with h | h
    · simp only [ProcessViewResult, hrev, Bool.false_eq_true, if_false, hdocs,
        finishReduce, h, false_and, applyRange]
    · subst h
      simp only [ProcessViewResult, hrev, Bool.false_eq_true, if_false, hdocs,
        finishReduce, ne_eq, not_true_eq_false, and_false, if_false, applyRange]
  · intro ek hek
    have hend : applyEndTrim (some ek) true [rowOfKey (.number 2)] = [rowOfKey (.number 2)] := by
      simp only [applyEndTrim, if_true, List.length_singleton]
      rw [sortSearch_one_false]
      · rfl
      · show decide ((0:Int) < collate (.number 2) ek) = false
        exact decide_eq_false (by omega)
    show finishReduce true ""
      { startkey := some (.number 2), limit := some 1, endkey := some ek } { exampleRows15 with
      Rows := applyEndTrim (some ek) true
        (applyLimit 1 (applyStartTrim (some (.number 2)) exampleRows15.Rows)) } = _
    rw [show applyLimit 1 (applyStartTrim (some (.number 2)) exampleRows15.Rows) =
      [rowOfKey (.number 2)] from rfl, hend]
    rfl

/-- Witness for C3: `limit=1`, `startkey=2`, `endkey=4` give exactly the
row with key 2, via the theorem. -/
theorem claim3_limit_between_trims_witness :
    ProcessViewResult exampleRows15
      { startkey := some (.number 2), limit := some 1, endkey := some (.number 4) }
      errBucket "" =
    some ({ TotalRows := 1, Rows := [rowOfKey (.number 2)] }, none) :=
  (claim3_limit_between_trims exampleRows15
    { startkey := some (.number 2), limit := some 1, endkey := some (.number 4) }
    errBucket "" rfl rfl (Or.inr rfl)).2.2 (.number 4) (by decide)

/-- C3 counterexample: keys 1..5 with `startkey=2`, `limit=1` and
`endkey=1` return no rows — not the row with key 2 — so "regardless of any
endkey value" is false as stated. -/
theorem claim3_counterexample :
    ¬ (ProcessViewResult exampleRows15
        { startkey := some (.number 2), limit := some 1, endkey := some (.number 1) }
        errBucket "" =
      some ({ TotalRows := 1, Rows := [rowOfKey (.number 2)] }, none)) := by
  intro h
  rw [show ProcessViewResult exampleRows15
      { startkey := some (.number 2), limit := some 1, endkey := some (.number 1) }
      errBucket "" = some ({ TotalRows := 0, Rows := [] }, none) from rfl] at h
  simp at h

/-- C4: an explicit `key` parameter overrides both `startkey` and `endkey`
with that same value and forces inclusive ends, giving an equality range:
the run equals the run with `startkey = endkey = key`, and on sorted keys
1,2,3,3,4 the parameter `key=3` selects exactly the two rows with key 3. -/
theorem claim4_key_override
    (result : ViewResult) (params : ViewParams)
    (bucket : String → Except ViewError JSONValue) (reduceFunction : String)
    (k : JSONValue) (hk : params.key = some k) :
    (ProcessViewResult result params bucket reduceFunction =
      ProcessViewResult result
        { params with
          key := none, startkey := some k, endkey := some k,
          inclusive_end := some true } bucket reduceFunction)
    ∧ (ProcessViewResult exampleRows1334 { key := some (.number 3) } errBucket "" =
        some ({ TotalRows := 2, Rows := [rowOfKey (.number 3), rowOfKey (.number 3)] },
          none)) := by
  refine ⟨?_, rfl⟩
  simp only [ProcessViewResult, applyRange, effectiveStartkey, effectiveEndkey,
    effectiveInclusiveEnd, finishReduce, ReduceViewResult, groupLevelOf, hk]
  rfl

/-- Witness for C4: the concrete equality-range example, via the theorem. -/
theorem claim4_key_override_witness :
    ProcessViewResult exampleRows1334 { key := some (.number 3) } errBucket "" =
      some ({ TotalRows := 2, Rows := [rowOfKey (.number 3), rowOfKey (.number 3)] },
        none) :=
  (claim4_key_override exampleRows1334 { key := some (.number 3) } errBucket ""
    (.number 3) rfl).2

/-- C9 (amended): re-running the pipeline on an already-processed result
with `reduce=false` returns it unchanged provided the parameters carry no
range boundary (`startkey`/`start_key`/`endkey`/`end_key`/`key`), no
limit, and `include_docs` is off; the unrestricted claim fails because the
range trims are re-applied to the reduced rows, whose keys are group keys
or unset (see the counterexample). -/
theorem claim9_rerun_unchanged
    (r : ViewResult) (params : ViewParams)
    (bucket : String → Except ViewError JSONValue) (reduceFunction : String)
    (h1 : params.startkey = none) (h2 : params.start_key = none)
    (h3 : params.endkey = none) (h4 : params.end_key = none)
    (h5 : params.key = none) (h6 : params.limit.getD 0 = 0)
    (h7 : params.include_docs.getD false = false)
    (h8 : params.reverse.getD false = false)
    (h9 : r.TotalRows = r.Rows.length) :
    ProcessViewResult r { params with reduce := some false } bucket reduceFunction =
      some (r, none) := by
  obtain ⟨tr, rows⟩ := r
  have hsk : effectiveStartkey { params with reduce := some false } = none := by
    simp [effectiveStartkey, h5, h1, h2]
  have hek : effectiveEndkey { params with reduce := some false } = none := by
    simp [effectiveEndkey, h5, h3, h4]
  simp only at h9
  subst h9
  simp only [ProcessViewResult, h8, Bool.false_eq_true, if_false, h7, applyRange, hsk, hek,
    applyEndTrim, h6, applyLimit_zero, applyStartTrim, finishReduce, Option.getD_some,
    false_and, ite_false]

/-- Witness for C9: re-running on a reduced single-row result with no
range parameters leaves it unchanged, via the theorem. -/
theorem claim9_rerun_unchanged_witness :
    ProcessViewResult exampleProcessed { reduce := some false } errBucket "_count" =
      some (exampleProcessed, none) :=
  claim9_rerun_unchanged exampleProcessed {} errBucket "_count"
    rfl rfl rfl rfl rfl rfl rfl rfl rfl

/-- C9 counterexample: the pipeline output of keys 1..5 under
`startkey=2, endkey=4` with `_count` is a single row keyed `null`;
re-running with the same parameters plus `reduce=false` trims that row
away (`null` collates below the startkey), so the re-run is not the
identity. -/
theorem claim9_counterexample :
    (ProcessViewResult exampleRows15
        { startkey := some (.number 2), endkey := some (.number 4) } errBucket "_count" =
      some (exampleProcessed, none))
    ∧ ¬ (ProcessViewResult exampleProcessed
        { startkey := some (.number 2), endkey := some (.number 4), reduce := some false }
        errBucket "_count" =
      some (exampleProcessed, none)) := by
  refine ⟨rfl, ?_⟩
  intro h
  rw [show ProcessViewResult exampleProcessed
      { startkey := some (.number 2), endkey := some (.number 4), reduce := some false }
      errBucket "_count" = some ({ TotalRows := 0, Rows := [] }, none) from rfl] at h
  simp [exampleProcessed] at h

/-- C10 (amended): with a recognized reduce function, grouped reduction
reads `Rows[0]` before the scan and so panics (`none`) exactly on an empty
row sequence or an unprojectable key: it is total when the rows are
non-empty and every key projects (always the case for `group=true`; for
`group_level=N` each key must be an array of at least `N` elements),
while ungrouped reduction (`groupLevel = 0`) accepts an empty sequence.
The original "total exactly under non-emptiness" fails for `group_level`
with a non-array key (see the counterexample). -/
theorem claim10_grouped_totality (params : ViewParams) :
    (∀ (result : ViewResult) (name : String) (g : List ViewRow → Except ViewError ViewRow),
        ReduceFunc name = .ok g → groupLevelOf params ≠ 0 → result.Rows = [] →
        ReduceViewResult name params result = none)
    ∧ (∀ (result : ViewResult) (name : String)
        (g : List ViewRow → Except ViewError ViewRow) (rf : List ViewRow → ViewRow),
        ReduceFunc name = .ok g → (∀ l, g l = .ok (rf l)) →
        groupLevelOf params ≠ 0 → result.Rows ≠ [] →
        (∀ r ∈ result.Rows, (projectKey (groupLevelOf params) r.Key).isSome) →
        (ReduceViewResult name params result).isSome)
    ∧ (∀ (result : ViewResult) (name : String) g row,
        ReduceFunc name = .ok g → groupLevelOf params = 0 → g result.Rows = .ok row →
        ReduceViewResult name params result = some (.ok { result with Rows := [row] })) := by
  refine ⟨?_, ?_, ?_⟩
  · intro result name g hR hgl hrows
    simp only [ReduceViewResult, hR, if_pos hgl, hrows]
  · intro result name g rf hR hg hgl hne hproj
    obtain ⟨row0, rest, hrows⟩ := List.exists_cons_of_ne_nil hne
    obtain ⟨k0, hk0⟩ := Option.isSome_iff_exists.mp
      (hproj row0 (by rw [hrows]; exact List.mem_cons_self row0 rest))
    have hscan := groupScan_eq_specScan g rf (groupLevelOf params) hg (row0 :: rest) k0 [] []
      (by rw [← hrows]; exact hproj)
    simp only [ReduceViewResult, hR, hrows, hk0, if_pos hgl, hscan, List.nil_append,
      Option.isSome_some]
  · intro result name g row hR hgl hrow
    simp only [ReduceViewResult, hR, hgl, ne_eq, not_true_eq_false, if_false, hrow]

/-- Witness for C10: grouping on an empty result panics, via the theorem. -/
theorem claim10_grouped_totality_witness :
    ReduceViewResult "_count" { group := some true } { TotalRows := 0, Rows := [] } = none :=
  (claim10_grouped_totality { group := some true }).1 { TotalRows := 0, Rows := [] }
    "_count" (fun rows => .ok { Value := .number (rows.length : Int) }) rfl (by decide) rfl

/-- C10 counterexample: `group_level=1` over the non-empty row list with
the non-array key `1` still panics (`keyPrefix` type assertion), so
grouped reduction is not total under non-emptiness alone. -/
theorem claim10_counterexample :
    (ReduceViewResult "_count" { group_level := some 1 }
        { TotalRows := 1, Rows := [rowOfKey (.number 1)] } = none)
    ∧ [rowOfKey (.number 1)] ≠ ([] : List ViewRow) := by
  exact ⟨rfl, fun h => List.noConfusion h⟩

/-! ## C8: document inlining -/

/-- When every surviving row's fetch succeeds, the inliner attaches each
decoded document as `Doc`, in order. -/
theorem fetchDocs_all_ok (bucket : String → Except ViewError JSONValue) :
    ∀ rows : List ViewRow, (∀ r ∈ rows, ∃ v, bucket r.ID = .ok v) →
      fetchDocs bucket rows = .ok (rows.map (fun r => { r with Doc := (bucket r.ID).toOption })) := by
  intro rows
  induction rows with
  | nil => intro _; rfl
  | cons row rest ih =>
    intro h
    obtain ⟨v, hv⟩ := h row (List.mem_cons_self row rest)
    rw [fetchDocs, hv, ih (fun r hr => h r (List.mem_cons_of_mem row hr)), List.map_cons, hv]
    rfl

/-- When some surviving row's fetch fails, the inliner fails. -/
theorem fetchDocs_fails (bucket : String → Except ViewError JSONValue) :
    ∀ rows : List ViewRow, (∃ r ∈ rows, ∀ v, bucket r.ID ≠ .ok v) →
      ∃ e, fetchDocs bucket rows = .error e := by
  intro rows
  induction rows with
  | nil => rintro ⟨r, hr, _⟩; exact absurd hr (List.not_mem_nil r)
  | cons row rest ih =>
    rintro ⟨r, hr, hfail⟩
    match hb : bucket row.ID with
    | .error e =>
      refine ⟨e, ?_⟩
      rw [fetchDocs, hb]
    | .ok v =>
      rcases List.mem_cons.mp hr with h | h
      · exact absurd hb (h ▸ hfail v)
      · obtain ⟨e, he⟩ := ih ⟨r, h, hfail⟩
        refine ⟨e, ?_⟩
        rw [fetchDocs, hb, he]

/-- C8: with `include_docs`, every surviving row gets the document fetched
by its `ID` and decoded attached as `Doc`; the pipeline returns an error
precisely when some fetch fails, and such a failure aborts the pipeline —
the error is returned with the merely-trimmed rows and the stale
`TotalRows`, no later stage having run. -/
theorem claim8_include_docs
    (result : ViewResult) (params : ViewParams)
    (bucket : String → Except ViewError JSONValue)
    (hdocs : params.include_docs = some true)
    (hrev : params.reverse.getD false = false) :
    ((∀ r ∈ applyRange params result.Rows, ∃ v, bucket r.ID = .ok v) →
        ProcessViewResult result params bucket "" =
          some ({ result with
            Rows := (applyRange params result.Rows).map
              (fun r => { r with Doc := (bucket r.ID).toOption }),
            TotalRows := (applyRange params result.Rows).length }, none))
    ∧ (∀ (reduceFunction : String),
        (∃ r ∈ applyRange params result.Rows, ∀ v, bucket r.ID ≠ .ok v) →
        ∃ e, ProcessViewResult result params bucket reduceFunction =
          some ({ result with Rows := applyRange params result.Rows }, some e)) := by
  constructor
  · intro hall
    rw [ProcessViewResult]
    simp only [hrev, Bool.false_eq_true, if_false, hdocs, Option.getD_some, if_true,
      fetchDocs_all_ok bucket _ hall, finishReduce, ne_eq, not_true_eq_false, and_false,
      ite_false, List.length_map]
  · intro reduceFunction hfail
    obtain ⟨e, he⟩ := fetchDocs_fails bucket _ hfail
    refine ⟨e, ?_⟩
    rw [ProcessViewResult]
    simp only [hrev, Bool.false_eq_true, if_false, hdocs, Option.getD_some, if_true, he]

/-- Witness for C8: all fetches succeed on the example rows, via the
theorem. -/
theorem claim8_include_docs_witness :
    ProcessViewResult exampleDocRows { include_docs := some true } okBucket "" =
      some ({ exampleDocRows with
        Rows := (applyRange { include_docs := some true } exampleDocRows.Rows).map
          (fun r => { r with Doc := (okBucket r.ID).toOption }),
        TotalRows := (applyRange { include_docs := some true } exampleDocRows.Rows).length },
        none) :=
  (claim8_include_docs exampleDocRows { include_docs := some true } okBucket rfl rfl).1
    (fun r _ => ⟨.string r.ID, rfl⟩)

/-! ## Order laws of the collator

The range selector's binary search is only correct on sorted input, so C2
needs the collation to be a total preorder: antisymmetric as a function
(`c a b = - c b a`) and transitive on `≤ 0`. These are proved for each
payload comparator, closed under lexicographic combination, and then for
the whole collator by well-founded induction on the value sizes. -/

theorem natCmp_symm (a b : Nat) : natCmp a b = - natCmp b a := by
  unfold natCmp; split_ifs <;> omega

theorem natCmp_le_trans (a b d : Nat) :
    natCmp a b ≤ 0 → natCmp b d ≤ 0 → natCmp a d ≤ 0 := by
  unfold natCmp; split_ifs <;> omega

theorem natCmp_lt (a b : Nat) (h : natCmp a b ≤ 0) (hne : a ≠ b) : a < b := by
  unfold natCmp at h; split_ifs at h <;> omega

theorem natCmp_neg (a b : Nat) (h : a < b) : natCmp a b = -1 := by
  unfold natCmp; rw [if_pos h]

theorem numCmp_symm (a b : Int) : numCmp a b = - numCmp b a := by
  unfold numCmp; split_ifs <;> omega

theorem numCmp_le_trans (a b d : Int) :
    numCmp a b ≤ 0 → numCmp b d ≤ 0 → numCmp a d ≤ 0 := by
  unfold numCmp; split_ifs <;> omega

theorem boolCmp_symm : ∀ a b : Bool, boolCmp a b = - boolCmp b a := by decide

theorem boolCmp_le_trans : ∀ a b d : Bool,
    boolCmp a b ≤ 0 → boolCmp b d ≤ 0 → boolCmp a d ≤ 0 := by decide

theorem charCmp_symm (a b : Char) : charCmp a b = - charCmp b a :=
  natCmp_symm a.toNat b.toNat

theorem charCmp_le_trans (a b d : Char) :
    charCmp a b ≤ 0 → charCmp b d ≤ 0 → charCmp a d ≤ 0 :=
  natCmp_le_trans a.toNat b.toNat d.toNat

theorem trans3_of_le_trans {c : α → α → Int}
    (htrans : ∀ x y z : α, c x y ≤ 0 → c y z ≤ 0 → c x z ≤ 0) (x y z : α) :
    Trans3 c x y z :=
  ⟨htrans x y z, htrans z y x, htrans z x y, htrans y z x⟩

theorem lexCmp_symm {c : α → α → Int} :
    ∀ (as bs : List α), (∀ x ∈ as, ∀ y ∈ bs, c x y = - c y x) →
      lexCmp c as bs = - lexCmp c bs as := by
  intro as
  induction as with
  | nil => intro bs _; cases bs <;> rfl
  | cons a as' ih =>
    intro bs h
    cases bs with
    | nil => rfl
    | cons b bs' =>
      have hab := h a (List.mem_cons_self a as') b (List.mem_cons_self b bs')
      have htail : ∀ x ∈ as', ∀ y ∈ bs', c x y = - c y x :=
        fun x hx y hy => h x (List.mem_cons_of_mem a hx) y (List.mem_cons_of_mem b hy)
      simp only [lexCmp]
      by_cases h0 : c a b = 0
      · rw [if_pos h0, if_pos (by omega : c b a = 0)]
        exact ih bs' htail
      · rw [if_neg h0, if_neg (by omega : ¬ c b a = 0)]
        exact hab

theorem lexCmp_le_trans {c : α → α → Int}
    (hsymm : ∀ x y : α, c x y = - c y x) :
    ∀ (as bs ds : List α),
      (∀ x ∈ as, ∀ y ∈ bs, ∀ z ∈ ds, Trans3 c x y z) →
      lexCmp c as bs ≤ 0 → lexCmp c bs ds ≤ 0 → lexCmp c as ds ≤ 0 := by
  intro as
  induction as with
  | nil =>
    intro bs ds _ _ _
    cases ds <;> simp [lexCmp]
  | cons a as' ih =>
    intro bs ds htrans h1 h2
    cases bs with
    | nil => simp [lexCmp] at h1
    | cons b bs' =>
      cases ds with
      | nil => simp [lexCmp] at h2
      | cons d ds' =>
        obtain ⟨tabd, tdba, tdab, tbda⟩ :=
          htrans a (List.mem_cons_self a as') b (List.mem_cons_self b bs')
            d (List.mem_cons_self d ds')
        have sab := hsymm a b
        have sbd := hsymm b d
        have sad := hsymm a d
        simp only [lexCmp] at h1 h2 ⊢
        by_cases hab : c a b = 0 <;> by_cases hbd : c b d = 0
        · rw [if_pos hab] at h1
          rw [if_pos hbd] at h2
          have u1 : c a d ≤ 0 := tabd (le_of_eq hab) (le_of_eq hbd)
          have u2 : c d a ≤ 0 := tdba (by omega) (by omega)
          rw [if_pos (by omega : c a d = 0)]
          exact ih bs' ds'
            (fun x hx y hy z hz => htrans x (List.mem_cons_of_mem a hx)
              y (List.mem_cons_of_mem b hy) z (List.mem_cons_of_mem d hz)) h1 h2
        · rw [if_pos hab] at h1
          rw [if_neg hbd] at h2
          have u1 : c a d ≤ 0 := tabd (le_of_eq hab) h2
          have hne : ¬ c a d = 0 := by
            intro h0
            have u2 : c d b ≤ 0 := tdab (by omega) (le_of_eq hab)
            omega
          rw [if_neg hne]
          exact u1
        · rw [if_neg hab] at h1
          rw [if_pos hbd] at h2
          have u1 : c a d ≤ 0 := tabd h1 (le_of_eq hbd)
          have hne : ¬ c a d = 0 := by
            intro h0
            have u2 : c b a ≤ 0 := tbda (le_of_eq hbd) (by omega)
            omega
          rw [if_neg hne]
          exact u1
        · rw [if_neg hab] at h1
          rw [if_neg hbd] at h2
          have u1 : c a d ≤ 0 := tabd h1 h2
          have hne : ¬ c a d = 0 := by
            intro h0
            have u2 : c b a ≤ 0 := tbda h2 (by omega)
            omega
          rw [if_neg hne]
          exact u1

theorem strCmp_symm (a b : String) : strCmp a b = - strCmp b a :=
  lexCmp_symm a.data b.data (fun x _ y _ => charCmp_symm x y)

theorem strCmp_le_trans (a b d : String) :
    strCmp a b ≤ 0 → strCmp b d ≤ 0 → strCmp a d ≤ 0 :=
  lexCmp_le_trans charCmp_symm a.data b.data d.data
    (fun x _ y _ z _ => trans3_of_le_trans charCmp_le_trans x y z)

theorem pairCmp_symm {c₁ : α → α → Int} {c₂ : β → β → Int} (p q : α × β)
    (h1 : c₁ p.1 q.1 = - c₁ q.1 p.1) (h2 : c₂ p.2 q.2 = - c₂ q.2 p.2) :
    pairCmp c₁ c₂ p q = - pairCmp c₁ c₂ q p := by
  unfold pairCmp
  by_cases h0 : c₁ p.1 q.1 = 0
  · rw [if_pos h0, if_pos (by omega : c₁ q.1 p.1 = 0)]
    exact h2
  · rw [if_neg h0, if_neg (by omega : ¬ c₁ q.1 p.1 = 0)]
    exact h1

theorem pairCmp_le_trans {c₁ : α → α → Int} {c₂ : β → β → Int}
    (h1symm : ∀ x y : α, c₁ x y = - c₁ y x)
    (h1trans : ∀ x y z : α, c₁ x y ≤ 0 → c₁ y z ≤ 0 → c₁ x z ≤ 0)
    {p q r : α × β}
    (hv : c₂ p.2 q.2 ≤ 0 → c₂ q.2 r.2 ≤ 0 → c₂ p.2 r.2 ≤ 0) :
    pairCmp c₁ c₂ p q ≤ 0 → pairCmp c₁ c₂ q r ≤ 0 → pairCmp c₁ c₂ p r ≤ 0 := by
  unfold pairCmp
  have s12 := h1symm p.1 q.1
  have s23 := h1symm q.1 r.1
  have s13 := h1symm p.1 r.1
  by_cases e12 : c₁ p.1 q.1 = 0 <;> by_cases e23 : c₁ q.1 r.1 = 0
  · have e13 : c₁ p.1 r.1 = 0 := by
      have u1 : c₁ p.1 r.1 ≤ 0 := h1trans p.1 q.1 r.1 (le_of_eq e12) (le_of_eq e23)
      have u2 : c₁ r.1 p.1 ≤ 0 := h1trans r.1 q.1 p.1 (by omega) (by omega)
      omega
    rw [if_pos e12, if_pos e23, if_pos e13]
    exact hv
  · rw [if_pos e12, if_neg e23]
    intro _ h2
    have h13le : c₁ p.1 r.1 ≤ 0 := h1trans p.1 q.1 r.1 (le_of_eq e12) h2
    have hne : ¬ c₁ p.1 r.1 = 0 := by
      intro h0
      have hrq : c₁ r.1 q.1 ≤ 0 := h1trans r.1 p.1 q.1 (by omega) (le_of_eq e12)
      omega
    rw [if_neg hne]
    exact h13le
  · rw [if_neg e12, if_pos e23]
    intro h1 _
    have h13le : c₁ p.1 r.1 ≤ 0 := h1trans p.1 q.1 r.1 h1 (le_of_eq e23)
    have hne : ¬ c₁ p.1 r.1 = 0 := by
      intro h0
      have hqp : c₁ q.1 p.1 ≤ 0 := h1trans q.1 r.1 p.1 (le_of_eq e23) (by omega)
      omega
    rw [if_neg hne]
    exact h13le
  · rw [if_neg e12, if_neg e23]
    intro h1 h2
    have h13le : c₁ p.1 r.1 ≤ 0 := h1trans p.1 q.1 r.1 h1 h2
    have hne : ¬ c₁ p.1 r.1 = 0 := by
      intro h0
      have hqp : c₁ q.1 p.1 ≤ 0 := h1trans q.1 r.1 p.1 h2 (by omega)
      omega
    rw [if_neg hne]
    exact h13le

/-- The array comparison is the lexicographic lift of the collator. -/
theorem collateArr_eq_lexCmp : ∀ as bs : List JSONValue,
    collateArr as bs = lexCmp collateRaw as bs := by
  intro as
  induction as with
  | nil => intro bs; cases bs <;> rfl
  | cons a as' ih =>
    intro bs
    cases bs with
    | nil => rfl
    | cons b bs' =>
      simp only [collateArr, lexCmp, ih]

/-- The object comparison is the lexicographic lift of the key-then-value
pair comparator. -/
theorem collateObj_eq_lexCmp : ∀ ps qs : List (String × JSONValue),
    collateObj ps qs = lexCmp (pairCmp strCmp collateRaw) ps qs := by
  intro ps
  induction ps with
  | nil => intro qs; cases qs <;> rfl
  | cons p ps' ih =>
    intro qs
    cases qs with
    | nil => rfl
    | cons q qs' =>
      simp only [collateObj, lexCmp, ih, pairCmp]
      by_cases hk : strCmp p.1 q.1 = 0
      · simp only [if_pos hk]
      · simp only [if_neg hk]

/-- On different type ranks the collator is the rank comparison. -/
theorem collateRaw_of_rank_ne {a b : JSONValue} (h : typeRank a ≠ typeRank b) :
    collateRaw a b = natCmp (typeRank a) (typeRank b) := by
  cases a <;> cases b <;> first | rfl | exact absurd rfl h

/-- Antisymmetry of the collator: `Collate(a,b) = -Collate(b,a)`. -/
theorem collateRaw_symm (a b : JSONValue) : collateRaw a b = - collateRaw b a := by
  cases a with
  | null => cases b <;> rfl
  | boolean x => cases b <;> first | exact boolCmp_symm _ _ | exact natCmp_symm _ _
  | number x => cases b <;> first | exact numCmp_symm _ _ | exact natCmp_symm _ _
  | string x => cases b <;> first | exact strCmp_symm _ _ | exact natCmp_symm _ _
  | array as =>
    cases b with
    | array bs =>
      show collateArr as bs = - collateArr bs as
      rw [collateArr_eq_lexCmp, collateArr_eq_lexCmp]
      exact lexCmp_symm as bs (fun x hx y hy => collateRaw_symm x y)
    | null => exact natCmp_symm _ _
    | boolean y => exact natCmp_symm _ _
    | number y => exact natCmp_symm _ _
    | string y => exact natCmp_symm _ _
    | object qs => exact natCmp_symm _ _
  | object ps =>
    cases b with
    | object qs =>
      show collateObj ps qs = - collateObj qs ps
      rw [collateObj_eq_lexCmp, collateObj_eq_lexCmp]
      exact lexCmp_symm ps qs
        (fun p hp q hq => pairCmp_symm p q (strCmp_symm _ _) (collateRaw_symm p.2 q.2))
    | null => exact natCmp_symm _ _
    | boolean y => exact natCmp_symm _ _
    | number y => exact natCmp_symm _ _
    | string y => exact natCmp_symm _ _
    | array bs => exact natCmp_symm _ _
termination_by sizeOf a + sizeOf b
decreasing_by
  · have u1 := List.sizeOf_lt_of_mem hx
    have u2 := List.sizeOf_lt_of_mem hy
    simp only [JSONValue.array.sizeOf_spec]
    omega
  · have u1 := List.sizeOf_lt_of_mem hp
    have u2 := List.sizeOf_lt_of_mem hq
    obtain ⟨k1, v1⟩ := p
    obtain ⟨k2, v2⟩ := q
    simp only [JSONValue.object.sizeOf_spec, Prod.mk.sizeOf_spec] at *
    omega

/-- Antisymmetry of the object-entry comparator. -/
theorem pairCmpKV_symm (p q : String × JSONValue) :
    pairCmp strCmp collateRaw p q = - pairCmp strCmp collateRaw q p :=
  pairCmp_symm p q (strCmp_symm _ _) (collateRaw_symm _ _)

/-- Transitivity of the collator on `≤ 0` (with antisymmetry this makes
the collation a total preorder, spec §8's "strict total order" testable
property). -/
theorem collateRaw_le_trans (a b d : JSONValue)
    (h1 : collateRaw a b ≤ 0) (h2 : collateRaw b d ≤ 0) : collateRaw a d ≤ 0 := by
  by_cases hab : typeRank a = typeRank b
  · by_cases hbd : typeRank b = typeRank d
    · cases a <;> cases b <;> cases d <;>
        first
          | (simp only [typeRank] at hab; omega)
          | (simp only [typeRank] at hbd; omega)
          | exact h1
          | exact boolCmp_le_trans _ _ _ h1 h2
          | exact numCmp_le_trans _ _ _ h1 h2
          | exact strCmp_le_trans _ _ _ h1 h2
          | (rename_i as bs ds
             show collateArr as ds ≤ 0
             rw [collateArr_eq_lexCmp as ds]
             have h1l : lexCmp collateRaw as bs ≤ 0 := by
               rw [← collateArr_eq_lexCmp as bs]; exact h1
             have h2l : lexCmp collateRaw bs ds ≤ 0 := by
               rw [← collateArr_eq_lexCmp bs ds]; exact h2
             exact lexCmp_le_trans collateRaw_symm as bs ds
               (fun x hx y hy z hz =>
                 ⟨collateRaw_le_trans x y z, collateRaw_le_trans z y x,
                  collateRaw_le_trans z x y, collateRaw_le_trans y z x⟩)
               h1l h2l)
          | (rename_i ps qs rs
             show collateObj ps rs ≤ 0
             rw [collateObj_eq_lexCmp ps rs]
             have h1l : lexCmp (pairCmp strCmp collateRaw) ps qs ≤ 0 := by
               rw [← collateObj_eq_lexCmp ps qs]; exact h1
             have h2l : lexCmp (pairCmp strCmp collateRaw) qs rs ≤ 0 := by
               rw [← collateObj_eq_lexCmp qs rs]; exact h2
             exact lexCmp_le_trans pairCmpKV_symm ps qs rs
               (fun p hp q hq r hr =>
                 ⟨pairCmp_le_trans strCmp_symm strCmp_le_trans
                    (collateRaw_le_trans p.2 q.2 r.2),
                  pairCmp_le_trans strCmp_symm strCmp_le_trans
                    (collateRaw_le_trans r.2 q.2 p.2),
                  pairCmp_le_trans strCmp_symm strCmp_le_trans
                    (collateRaw_le_trans r.2 p.2 q.2),
                  pairCmp_le_trans strCmp_symm strCmp_le_trans
                    (collateRaw_le_trans q.2 r.2 p.2)⟩)
               h1l h2l)
    · rw [collateRaw_of_rank_ne hbd] at h2
      have hlt2 : typeRank b < typeRank d := natCmp_lt _ _ h2 hbd
      have hne : typeRank a ≠ typeRank d := by omega
      rw [collateRaw_of_rank_ne hne, natCmp_neg _ _ (by omega)]
      omega
  · rw [collateRaw_of_rank_ne hab] at h1
    have hlt1 : typeRank a < typeRank b := natCmp_lt _ _ h1 hab
    by_cases hbd : typeRank b = typeRank d
    · have hne : typeRank a ≠ typeRank d := by omega
      rw [collateRaw_of_rank_ne hne, natCmp_neg _ _ (by omega)]
      omega
    · rw [collateRaw_of_rank_ne hbd] at h2
      have hlt2 : typeRank b < typeRank d := natCmp_lt _ _ h2 hbd
      have hne : typeRank a ≠ typeRank d := by omega
      rw [collateRaw_of_rank_ne hne, natCmp_neg _ _ (by omega)]
      omega
termination_by sizeOf a + sizeOf b + sizeOf d
decreasing_by
  all_goals subst_vars
  all_goals
    first
      | (have u1 := List.sizeOf_lt_of_mem hx
         have u2 := List.sizeOf_lt_of_mem hy
         have u3 := List.sizeOf_lt_of_mem hz
         simp only [JSONValue.array.sizeOf_spec]
         omega)
      | (have u1 := List.sizeOf_lt_of_mem hp
         have u2 := List.sizeOf_lt_of_mem hq
         have u3 := List.sizeOf_lt_of_mem hr
         obtain ⟨k1, v1⟩ := p
         obtain ⟨k2, v2⟩ := q
         obtain ⟨k3, v3⟩ := r
         simp only [JSONValue.object.sizeOf_spec, Prod.mk.sizeOf_spec] at *
         omega)

theorem collate_symm (a b : JSONValue) : collate a b = - collate b a :=
  collateRaw_symm _ _

theorem collate_le_trans (a b d : JSONValue) :
    collate a b ≤ 0 → collate b d ≤ 0 → collate a d ≤ 0 :=
  collateRaw_le_trans _ _ _

theorem collate_refl (a : JSONValue) : collate a a = 0 := by
  have h := collate_symm a a
  omega

theorem collate_lt_of_le_of_lt (a b d : JSONValue)
    (h1 : collate a b ≤ 0) (h2 : collate b d < 0) : collate a d < 0 := by
  have h3 : collate a d ≤ 0 := collate_le_trans a b d h1 (by omega)
  by_cases h0 : collate a d = 0
  · have hda : collate d a ≤ 0 := by have hs := collate_symm a d; omega
    have hdb : collate d b ≤ 0 := collate_le_trans d a b hda h1
    have hs2 := collate_symm b d
    omega
  · omega

/-! ## Correctness of the binary search on monotone predicates -/

theorem searchLoop_spec (f : Nat → Bool) (n : Nat)
    (hmono : ∀ k l, k ≤ l → l < n → f k = true → f l = true) :
    ∀ (fuel i j : Nat), j ≤ n → i ≤ j → j - i ≤ fuel →
      (∀ k, k < i → f k = false) →
      (∀ k, j ≤ k → k < n → f k = true) →
      i ≤ searchLoop f fuel i j ∧ searchLoop f fuel i j ≤ j ∧
      (∀ k, k < searchLoop f fuel i j → f k = false) ∧
      (∀ k, searchLoop f fuel i j ≤ k → k < n → f k = true) := by
  intro fuel
  induction fuel with
  | zero =>
    intro i j hjn hij hfuel hlow hhigh
    have hij' : i = j := by omega
    subst hij'
    rw [searchLoop]
    exact ⟨le_refl i, le_refl i, hlow, fun k hk hkn => hhigh k hk hkn⟩
  | succ fuel ih =>
    intro i j hjn hij hfuel hlow hhigh
    rw [searchLoop]
    by_cases hlt : i < j
    · rw [if_pos hlt]
      by_cases hf : f ((i + j) / 2) = true
      · rw [if_pos hf]
        obtain ⟨u1, u2, u3, u4⟩ := ih i ((i + j) / 2) (by omega) (by omega) (by omega) hlow
          (fun k hk hkn => hmono ((i + j) / 2) k hk hkn hf)
        exact ⟨u1, by omega, u3, u4⟩
      · rw [if_neg hf]
        rw [Bool.not_eq_true] at hf
        have hlow2 : ∀ k, k < (i + j) / 2 + 1 → f k = false := by
          intro k hk
          cases hfk : f k with
          | false => rfl
          | true =>
            have hfh := hmono k ((i + j) / 2) (by omega) (by omega) hfk
            rw [hf] at hfh
            exact Bool.noConfusion hfh
        obtain ⟨u1, u2, u3, u4⟩ := ih ((i + j) / 2 + 1) j (by omega) (by omega) (by omega)
          hlow2 hhigh
        exact ⟨by omega, u2, u3, u4⟩
    · rw [if_neg hlt]
      have hij' : i = j := by omega
      subst hij'
      exact ⟨le_refl i, le_refl i, hlow, fun k hk hkn => hhigh k hk hkn⟩

theorem sortSearch_spec (n : Nat) (f : Nat → Bool)
    (hmono : ∀ k l, k ≤ l → l < n → f k = true → f l = true) :
    sortSearch n f ≤ n ∧ (∀ k, k < sortSearch n f → f k = false) ∧
    (∀ k, sortSearch n f ≤ k → k < n → f k = true) := by
  have h := searchLoop_spec f n hmono n 0 n (le_refl n) (Nat.zero_le n) (by omega)
    (fun k hk => absurd hk (Nat.not_lt_zero k)) (fun k hk hkn => absurd hkn (by omega))
  exact ⟨h.2.1, h.2.2.1, h.2.2.2⟩

/-! ## Positional characterizations of `takeWhile` and `dropWhile` -/

theorem takeWhile_eq_take {p : α → Bool} (d : α) :
    ∀ (l : List α) (r : Nat), r ≤ l.length →
      (∀ k, k < r → p (l.getD k d) = true) →
      (r < l.length → p (l.getD r d) = false) →
      l.takeWhile p = l.take r := by
  intro l
  induction l with
  | nil => intro r _ _ _; simp
  | cons x xs ih =>
    intro r hr h1 h2
    cases r with
    | zero =>
      have hx : p x = false := h2 (Nat.succ_pos xs.length)
      rw [List.takeWhile_cons_of_neg (by rw [hx]; exact Bool.false_ne_true), List.take_zero]
    | succ r' =>
      have hx : p x = true := h1 0 (Nat.succ_pos r')
      rw [List.takeWhile_cons_of_pos (by rw [hx]), List.take_succ_cons]
      refine congrArg (x :: ·) (ih r' ?_ ?_ ?_)
      · simp only [List.length_cons] at hr
        omega
      · exact fun k hk => h1 (k + 1) (by omega)
      · intro hlen
        exact h2 (by simp only [List.length_cons]; omega)

theorem dropWhile_eq_drop {p : α → Bool} (d : α) :
    ∀ (l : List α) (r : Nat), r ≤ l.length →
      (∀ k, k < r → p (l.getD k d) = true) →
      (r < l.length → p (l.getD r d) = false) →
      l.dropWhile p = l.drop r := by
  intro l
  induction l with
  | nil => intro r _ _ _; simp
  | cons x xs ih =>
    intro r hr h1 h2
    cases r with
    | zero =>
      have hx : p x = false := h2 (Nat.succ_pos xs.length)
      rw [List.dropWhile_cons_of_neg (by rw [hx]; exact Bool.false_ne_true), List.drop_zero]
    | succ r' =>
      have hx : p x = true := h1 0 (Nat.succ_pos r')
      rw [List.dropWhile_cons_of_pos (by rw [hx]), List.drop_succ_cons]
      refine ih r' ?_ ?_ ?_
      · simp only [List.length_cons] at hr
        omega
      · exact fun k hk => h1 (k + 1) (by omega)
      · intro hlen
        exact h2 (by simp only [List.length_cons]; omega)

/-- Sorted keys make the start-trim predicate monotone in the index. -/
theorem startTrim_mono (rows : List ViewRow) (sk : JSONValue) (hs : SortedRows rows) :
    ∀ k l, k ≤ l → l < rows.length →
      decide (0 ≤ collate (rows.getD k {}).Key sk) = true →
      decide (0 ≤ collate (rows.getD l {}).Key sk) = true := by
  intro k l hkl hln hfk
  have hkn : k < rows.length := Nat.lt_of_le_of_lt hkl hln
  rw [decide_eq_true_iff] at hfk ⊢
  have hkey : collate (rows.getD k {}).Key (rows.getD l {}).Key ≤ 0 := by
    rcases Nat.eq_or_lt_of_le hkl with heq | hlt
    · subst heq
      exact le_of_eq (collate_refl _)
    · have hp := List.pairwise_iff_get.mp hs ⟨k, hkn⟩ ⟨l, hln⟩ hlt
      rw [List.getD_eq_getElem rows _ hkn, List.getD_eq_getElem rows _ hln]
      simpa using hp
  have h1 : collate sk (rows.getD k {}).Key ≤ 0 := by
    have hsym := collate_symm (rows.getD k {}).Key sk
    omega
  have h2 : collate sk (rows.getD l {}).Key ≤ 0 := collate_le_trans _ _ _ h1 hkey
  have hsym2 := collate_symm (rows.getD l {}).Key sk
  omega

/-- Sorted keys make the end-trim cut predicate monotone in the index. -/
theorem endTrim_mono (rows : List ViewRow) (ek : JSONValue) (t : Int)
    (ht : t = 0 ∨ t = -1) (hs : SortedRows rows) :
    ∀ k l, k ≤ l → l < rows.length →
      decide (t < collate (rows.getD k {}).Key ek) = true →
      decide (t < collate (rows.getD l {}).Key ek) = true := by
  intro k l hkl hln hfk
  have hkn : k < rows.length := Nat.lt_of_le_of_lt hkl hln
  rw [decide_eq_true_iff] at hfk ⊢
  have hkey : collate (rows.getD k {}).Key (rows.getD l {}).Key ≤ 0 := by
    rcases Nat.eq_or_lt_of_le hkl with heq | hlt
    · subst heq
      exact le_of_eq (collate_refl _)
    · have hp := List.pairwise_iff_get.mp hs ⟨k, hkn⟩ ⟨l, hln⟩ hlt
      rw [List.getD_eq_getElem rows _ hkn, List.getD_eq_getElem rows _ hln]
      simpa using hp
  by_contra hc
  push_neg at hc
  rcases ht with ht0 | ht1
  · subst ht0
    have := collate_le_trans _ _ _ hkey hc
    omega
  · subst ht1
    have hlt0 : collate (rows.getD l {}).Key ek < 0 := by omega
    have := collate_lt_of_le_of_lt _ _ _ hkey hlt0
    omega

/-- On sorted rows the binary-search start trim is exactly the spec's
first-index trim. -/
theorem applyStartTrim_sorted (startkey : Option JSONValue) (rows : List ViewRow)
    (hs : SortedRows rows) : applyStartTrim startkey rows = specStartTrim startkey rows := by
  cases startkey with
  | none => rfl
  | some sk =>
    obtain ⟨hle, hbelow, habove⟩ :=
      sortSearch_spec rows.length (fun i => decide (0 ≤ collate (rows.getD i {}).Key sk))
        (startTrim_mono rows sk hs)
    show rows.drop _ = rows.dropWhile _
    refine (dropWhile_eq_drop {} rows _ hle ?_ ?_).symm
    · intro k hk
      have hf := hbelow k hk
      rw [decide_eq_false_iff_not] at hf
      rw [decide_eq_true_iff]
      omega
    · intro hlt
      have hf := habove _ (le_refl _) hlt
      rw [decide_eq_true_iff] at hf
      rw [decide_eq_false_iff_not]
      omega

/-- On sorted rows the binary-search end trim is exactly the spec's
first-index cut. -/
theorem applyEndTrim_sorted (endkey : Option JSONValue) (inclusiveEnd : Bool)
    (rows : List ViewRow) (hs : SortedRows rows) :
    applyEndTrim endkey inclusiveEnd rows = specEndTrim endkey inclusiveEnd rows := by
  cases endkey with
  | none => rfl
  | some ek =>
    obtain ⟨hle, hbelow, habove⟩ :=
      sortSearch_spec rows.length
        (fun i => decide ((if inclusiveEnd then (0:Int) else -1) <
          collate (rows.getD i {}).Key ek))
        (endTrim_mono rows ek _ (by by_cases h : inclusiveEnd <;> simp [h]) hs)
    show rows.take _ = rows.takeWhile _
    refine (takeWhile_eq_take {} rows _ hle ?_ ?_).symm
    · intro k hk
      have hf := hbelow k hk
      rw [decide_eq_false_iff_not] at hf
      rw [decide_eq_true_iff]
      omega
    · intro hlt
      have hf := habove _ (le_refl _) hlt
      rw [decide_eq_true_iff] at hf
      rw [decide_eq_false_iff_not]
      omega

/-- The start trim keeps the rows sorted. -/
theorem SortedRows_specStartTrim (startkey : Option JSONValue) (rows : List ViewRow)
    (hs : SortedRows rows) : SortedRows (specStartTrim startkey rows) := by
  cases startkey with
  | none => exact hs
  | some sk => exact hs.sublist (List.dropWhile_sublist _)

/-- C2: on every sorted row sequence, range selection keeps exactly the
contiguous sub-range selected by the boundaries: the rows before the first
index with `Collate(key, startkey) >= 0` are dropped, the sequence is cut
at the first index whose key collates above the threshold (`0` when
`inclusive_end`, else `-1`; `inclusive_end` defaults to true) — stated via
the spec's first-index trims `specStartTrim`/`specEndTrim`. For sorted
keys 1..5, `startkey=2, endkey=4` keeps 2,3,4, and `inclusive_end=false`
keeps 2,3. -/
theorem claim2_range_selection
    (result : ViewResult) (params : ViewParams)
    (bucket : String → Except ViewError JSONValue)
    (hsorted : SortedRows result.Rows)
    (hrev : params.reverse.getD false = false)
    (hdocs : params.include_docs.getD false = false)
    (hlimit : params.limit.getD 0 = 0) :
    (ProcessViewResult result params bucket "" =
      some ({ result with
        Rows := specEndTrim (effectiveEndkey params) (effectiveInclusiveEnd params)
          (specStartTrim (effectiveStartkey params) result.Rows),
        TotalRows := (specEndTrim (effectiveEndkey params) (effectiveInclusiveEnd params)
          (specStartTrim (effectiveStartkey params) result.Rows)).length }, none))
    ∧ (ProcessViewResult exampleRows15
        { startkey := some (.number 2), endkey := some (.number 4) } errBucket "" =
        some (⟨3, [rowOfKey (.number 2), rowOfKey (.number 3), rowOfKey (.number 4)]⟩,
          none))
    ∧ (ProcessViewResult exampleRows15
        { startkey := some (.number 2), endkey := some (.number 4),
          inclusive_end := some false } errBucket "" =
        some (⟨2, [rowOfKey (.number 2), rowOfKey (.number 3)]⟩, none)) := by
  refine ⟨?_, rfl, rfl⟩
  have e1 := applyStartTrim_sorted (effectiveStartkey params) result.Rows hsorted
  have hs2 := SortedRows_specStartTrim (effectiveStartkey params) result.Rows hsorted
  have e2 := applyEndTrim_sorted (effectiveEndkey params) (effectiveInclusiveEnd params)
    (specStartTrim (effectiveStartkey params) result.Rows) hs2
  simp only [ProcessViewResult, hrev, Bool.false_eq_true, if_false, hdocs, applyRange,
    hlimit, applyLimit_zero, e1, e2, finishReduce, ne_eq, not_true_eq_false, and_false,
    ite_false]

/-- Witness for C2: the concrete inclusive range example, via the theorem. -/
theorem claim2_range_selection_witness :
    ProcessViewResult exampleRows15
      { startkey := some (.number 2), endkey := some (.number 4) } errBucket "" =
    some (⟨3, [rowOfKey (.number 2), rowOfKey (.number 3), rowOfKey (.number 4)]⟩,
      none) :=
  (claim2_range_selection exampleRows15
    { startkey := some (.number 2), endkey := some (.number 4) } errBucket
    (by simp only [SortedRows, exampleRows15, rowOfKey, List.pairwise_cons]; decide)
    rfl rfl rfl).2.1

end SGBucket

